import Mathlib

/-!
Verification of the TESA label-normalization and metrics engine.

The definitions below are a shallow embedding of the TypeScript sources:
`src/utils/labelMapping.ts`, `src/services/metrics.ts`,
`src/services/csvUtils.ts`, `src/context/AnalysisContext.tsx` and
`src/pages/SettingsPage.tsx`.  JavaScript numbers that carry label codes are
modelled as `Option Int` (null/undefined becomes `none`); fractional metric
values are modelled as exact rationals.
-/

namespace Tesa

/-- Semantic sentiment classes (`LabelMeaning` in `SettingsContext.tsx`). -/
inductive LabelMeaning
  | negative
  | neutral
  | positive
deriving DecidableEq, Repr, Fintype

/-- `LabelCode = 0 | 1 | 2` from `labelMapping.ts`. -/
abbrev LabelCode := Fin 3

/-- How the model understands its numbers (`MODEL_MEANING`). -/
def MODEL_MEANING : LabelCode → LabelMeaning
  | 0 => .negative
  | 1 => .neutral
  | 2 => .positive

/-- `MEANING_TO_INDEX` from `labelMapping.ts`. -/
def MEANING_TO_INDEX : LabelMeaning → LabelCode
  | .negative => 0
  | .neutral => 1
  | .positive => 2

/-- A total label mapping `Record<LabelCode, LabelMeaning>`. -/
abbrev LabelMapping := LabelCode → LabelMeaning

/-- `DEFAULT_LABEL_MAPPING` (identity mapping). -/
def DEFAULT_LABEL_MAPPING : LabelMapping := MODEL_MEANING

/-- A possibly missing, possibly key-incomplete persisted mapping
(`Record<number, LabelMeaning> | null | undefined` restricted to the three
keys that are ever read). -/
abbrev PartialLabelMapping := Option (LabelCode → Option LabelMeaning)

/-- `normalizeLabelMapping` from `labelMapping.ts`: `raw = mapping ?? {}`,
then each key falls back to the default mapping. -/
def normalizeLabelMapping (mapping : PartialLabelMapping) : LabelMapping :=
  fun c => ((mapping.getD (fun _ => none)) c).getD (DEFAULT_LABEL_MAPPING c)

/-- The runtime guard `code !== 0 && code !== 1 && code !== 2` shared by
`datasetCodeToConceptLabel` and `modelCodeToConceptLabel`. -/
def toLabelCode : Option Int → Option LabelCode
  | some 0 => some 0
  | some 1 => some 1
  | some 2 => some 2
  | _ => none

/-- `datasetCodeToConceptLabel` from `labelMapping.ts`: a dataset code is
resolved through the mapping, then `MEANING_TO_INDEX` (its `?? null` fallback
never fires because `MEANING_TO_INDEX` is total). -/
def datasetCodeToConceptLabel (datasetCode : Option Int) (mapping : LabelMapping) :
    Option LabelCode :=
  match toLabelCode datasetCode with
  | none => none
  | some code => some (MEANING_TO_INDEX (mapping code))

/-- `modelCodeToConceptLabel` from `labelMapping.ts`: fixed identity, guarded. -/
def modelCodeToConceptLabel (modelCode : Option Int) : Option LabelCode :=
  toLabelCode modelCode

/-- `conceptLabelToDatasetCode` from `labelMapping.ts`: `Object.entries` of a
mapping with keys 0,1,2 enumerates them in ascending numeric order, and
`.find` takes the first code whose meaning matches; on no match the concept
label itself is the fallback. -/
def conceptLabelToDatasetCode (conceptLabel : LabelCode) (mapping : LabelMapping) :
    LabelCode :=
  let meaning := MODEL_MEANING conceptLabel
  match ([0, 1, 2] : List LabelCode).find? (fun c => mapping c = meaning) with
  | some code => code
  | none => conceptLabel

/-- `handleMappingClick` from `SettingsPage.tsx`, restricted to its pure
mapping update: a no-op when the code already has the meaning, otherwise every
other code currently holding the meaning receives the displaced meaning and
the clicked code receives the new meaning.  (In the source the loop checks
`next[c] === meaning` while mutating `next`; since entries are only ever
overwritten with `prevMeaning ≠ meaning`, that is equivalent to checking the
original mapping, which is what this embedding does.) -/
def handleMappingClick (current : LabelMapping) (code : LabelCode)
    (meaning : LabelMeaning) : LabelMapping :=
  let prevMeaning := current code
  if prevMeaning = meaning then current
  else
    fun c =>
      if c = code then meaning
      else if current c = meaning then prevMeaning
      else current c

/-- Dataset code rendered back to an integer. -/
def codeToInt (c : LabelCode) : Int := (c.val : Int)

set_option synthInstance.maxSize 2000 in
/-- C2: for every bijective label mapping over codes {0,1,2} and every target
pair (code, class), `handleMappingClick` returns a mapping that is still a
bijection onto the semantic classes: when the mapping already assigns that
class to the code it is a no-op, otherwise the code previously holding the
class receives the displaced class (a transposition). -/
theorem C2_setMapping_preserves_bijection :
    ∀ (m : LabelMapping) (code : LabelCode) (meaning : LabelMeaning),
      Function.Bijective m →
        Function.Bijective (handleMappingClick m code meaning) ∧
        (m code = meaning → handleMappingClick m code meaning = m) ∧
        (∀ c, m code ≠ meaning → m c = meaning →
          handleMappingClick m code meaning code = meaning ∧
          handleMappingClick m code meaning c = m code ∧
          ∀ d, d ≠ code → d ≠ c → handleMappingClick m code meaning d = m d) := by
  decide

/-- Witness for C2 at a concrete bijective mapping and target pair. -/
theorem C2_setMapping_preserves_bijection_witness :
    Function.Bijective DEFAULT_LABEL_MAPPING ∧
      Function.Bijective (handleMappingClick DEFAULT_LABEL_MAPPING 0 .positive) :=
  ⟨by decide,
    (C2_setMapping_preserves_bijection DEFAULT_LABEL_MAPPING 0 .positive
      (by decide)).1⟩

/-- C3: for every semantic class and every bijective mapping, converting the
class to a dataset code with `conceptLabelToDatasetCode` and resolving that
code back with `datasetCodeToConceptLabel` yields the class again. -/
theorem C3_dataset_code_round_trip :
    ∀ (y : LabelCode) (m : LabelMapping),
      Function.Bijective m →
        datasetCodeToConceptLabel (some (codeToInt (conceptLabelToDatasetCode y m))) m
          = some y := by
  decide

/-- Witness for C3 at a concrete class and non-identity bijective mapping. -/
theorem C3_dataset_code_round_trip_witness :
    Function.Bijective (handleMappingClick DEFAULT_LABEL_MAPPING 0 .positive) ∧
      datasetCodeToConceptLabel
        (some (codeToInt (conceptLabelToDatasetCode 2
          (handleMappingClick DEFAULT_LABEL_MAPPING 0 .positive))))
        (handleMappingClick DEFAULT_LABEL_MAPPING 0 .positive) = some 2 :=
  ⟨by decide,
    C3_dataset_code_round_trip 2
      (handleMappingClick DEFAULT_LABEL_MAPPING 0 .positive) (by decide)⟩

/-! ## Records and the metrics engine (`types/sentiment.ts`, `services/metrics.ts`) -/

/-- Row lifecycle status from `types/sentiment.ts`. -/
inductive RowStatus
  | raw
  | predicted
  | corrected
deriving DecidableEq, Repr

/-- Per-class probability block of a `ReviewRow`. -/
structure SentimentProbs where
  negative : ℚ
  neutral : ℚ
  positive : ℚ
deriving DecidableEq, Repr

/-- `ReviewRow` from `types/sentiment.ts`; label fields are nullable numbers. -/
structure ReviewRow where
  id : String
  text : String
  src : Option String
  predictedLabel : Option Int
  trueLabel : Option Int
  correctedLabel : Option Int
  probs : Option SentimentProbs
  status : RowStatus
deriving DecidableEq, Repr

/-- One entry of `Metrics.perClass`. -/
/- The field written «recall» is the source's `recall`; the guillemets only
escape a name Mathlib reserves as a command keyword. -/
structure PerClassMetrics where
  label : LabelCode
  precision : ℚ
  «recall» : ℚ
  f1 : ℚ
deriving DecidableEq, Repr

/-- `Metrics` from `types/sentiment.ts`. -/
structure Metrics where
  macroF1 : ℚ
  perClass : List PerClassMetrics
  confusionMatrix : List (List Nat)
deriving DecidableEq, Repr

/-- The mutable counters of `computeMetricsForReviews`. -/
structure Tallies where
  confusion : LabelCode → LabelCode → Nat
  tp : LabelCode → Nat
  fp : LabelCode → Nat
  fn : LabelCode → Nat

/-- All counters start at zero. -/
def initTallies : Tallies :=
  { confusion := fun _ _ => 0, tp := fun _ => 0, fp := fun _ => 0, fn := fun _ => 0 }

/-- One iteration of the `reviews.forEach` loop in `computeMetricsForReviews`:
resolves the true concept through the mapping and the predicted concept
through the fixed model identity, skips the row unless both are defined, then
bumps the confusion cell and the tp / fp / fn counters. -/
def tallyStep (mapping : LabelMapping) (t : Tallies) (r : ReviewRow) : Tallies :=
  match datasetCodeToConceptLabel r.trueLabel mapping,
        modelCodeToConceptLabel r.predictedLabel with
  | some trueConcept, some predConcept =>
    { confusion := fun i j =>
        if i = trueConcept ∧ j = predConcept then t.confusion i j + 1
        else t.confusion i j
      tp := fun c =>
        if trueConcept = predConcept ∧ c = trueConcept then t.tp c + 1 else t.tp c
      fp := fun c =>
        if ¬trueConcept = predConcept ∧ c = predConcept then t.fp c + 1 else t.fp c
      fn := fun c =>
        if ¬trueConcept = predConcept ∧ c = trueConcept then t.fn c + 1 else t.fn c }
  | _, _ => t

/-- The counters after the whole loop. -/
def metricsTallies (mapping : LabelMapping) (reviews : List ReviewRow) : Tallies :=
  reviews.foldl (tallyStep mapping) initTallies

/-- The `classes.map` body of `computeMetricsForReviews`: zero-denominator
precision and recall fall back to 0, and f1 falls back to 0 when
`precision + recall` is not positive. -/
def perClassOf (t : Tallies) : List PerClassMetrics :=
  ([0, 1, 2] : List LabelCode).map (fun c =>
    let precisionDen := t.tp c + t.fp c
    let recallDen := t.tp c + t.fn c
    let precision : ℚ := if precisionDen ≠ 0 then (t.tp c : ℚ) / (precisionDen : ℚ) else 0
    let «recall» : ℚ := if recallDen ≠ 0 then (t.tp c : ℚ) / (recallDen : ℚ) else 0
    let f1 : ℚ :=
      if 0 < precision + «recall» then 2 * precision * «recall» / (precision + «recall») else 0
    { label := c, precision := precision, «recall» := «recall», f1 := f1 })

/-- `computeMetricsForReviews` from `services/metrics.ts`.  It returns `none`
exactly when the incoming list is empty; the `Number.isFinite` guard inside
the macro-F1 reduction never fires for exact rationals, so the fold adds the
f1 values directly. -/
def computeMetricsForReviews (reviews : List ReviewRow)
    (labelMapping : PartialLabelMapping) : Option Metrics :=
  if reviews.length = 0 then none
  else
    let mapping := normalizeLabelMapping labelMapping
    let t := metricsTallies mapping reviews
    let perClass := perClassOf t
    let macroF1 := (perClass.foldl (fun sum c => sum + c.f1) 0) / (3 : ℚ)
    some
      { macroF1 := macroF1
        perClass := perClass
        confusionMatrix :=
          [[t.confusion 0 0, t.confusion 0 1, t.confusion 0 2],
           [t.confusion 1 0, t.confusion 1 1, t.confusion 1 2],
           [t.confusion 2 0, t.confusion 2 1, t.confusion 2 2]] }

/-! Specification-level counting functions, used to state what the single
fold-pass of the engine computes. -/

/-- The pair of resolved concepts a row contributes, when it qualifies. -/
def conceptPair (mapping : LabelMapping) (r : ReviewRow) :
    Option (LabelCode × LabelCode) :=
  match datasetCodeToConceptLabel r.trueLabel mapping,
        modelCodeToConceptLabel r.predictedLabel with
  | some trueConcept, some predConcept => some (trueConcept, predConcept)
  | _, _ => none

/-- The (true concept, predicted concept) pairs of the qualifying rows. -/
def qualifyingPairs (mapping : LabelMapping) (reviews : List ReviewRow) :
    List (LabelCode × LabelCode) :=
  reviews.filterMap (conceptPair mapping)

/-- Number of qualifying rows with true concept `i` and predicted concept `j`. -/
def pairCount (pairs : List (LabelCode × LabelCode)) (i j : LabelCode) : Nat :=
  pairs.countP (fun p => decide (p.1 = i ∧ p.2 = j))

/-- True positives of class `c`. -/
def tpCount (pairs : List (LabelCode × LabelCode)) (c : LabelCode) : Nat :=
  pairs.countP (fun p => decide (p.1 = p.2 ∧ p.1 = c))

/-- False positives of class `c`: predicted `c`, true concept different. -/
def fpCount (pairs : List (LabelCode × LabelCode)) (c : LabelCode) : Nat :=
  pairs.countP (fun p => decide (¬p.1 = p.2 ∧ p.2 = c))

/-- False negatives of class `c`: true concept `c`, predicted different. -/
def fnCount (pairs : List (LabelCode × LabelCode)) (c : LabelCode) : Nat :=
  pairs.countP (fun p => decide (¬p.1 = p.2 ∧ p.1 = c))

/-! Bridging lemmas: the single fold pass of the engine computes the
specification-level counts. -/

lemma foldlTally_spec (mapping : LabelMapping) (reviews : List ReviewRow) :
    ∀ t : Tallies,
      (∀ i j, (reviews.foldl (tallyStep mapping) t).confusion i j
        = t.confusion i j + pairCount (qualifyingPairs mapping reviews) i j) ∧
      (∀ c, (reviews.foldl (tallyStep mapping) t).tp c
        = t.tp c + tpCount (qualifyingPairs mapping reviews) c) ∧
      (∀ c, (reviews.foldl (tallyStep mapping) t).fp c
        = t.fp c + fpCount (qualifyingPairs mapping reviews) c) ∧
      (∀ c, (reviews.foldl (tallyStep mapping) t).fn c
        = t.fn c + fnCount (qualifyingPairs mapping reviews) c) := by
  induction reviews with
  | nil =>
    intro t
    refine ⟨?_, ?_, ?_, ?_⟩ <;> intros <;>
      simp [qualifyingPairs, pairCount, tpCount, fpCount, fnCount]
  | cons r rs ih =>
    intro t
    simp only [List.foldl_cons]
    cases htc : datasetCodeToConceptLabel r.trueLabel mapping with
    | none =>
      have h1 : tallyStep mapping t r = t := by simp [tallyStep, htc]
      have h2 : qualifyingPairs mapping (r :: rs) = qualifyingPairs mapping rs := by
        simp [qualifyingPairs, List.filterMap_cons, conceptPair, htc]
      rw [h1, h2]
      exact ih t
    | some tc =>
      cases hpc : modelCodeToConceptLabel r.predictedLabel with
      | none =>
        have h1 : tallyStep mapping t r = t := by simp [tallyStep, htc, hpc]
        have h2 : qualifyingPairs mapping (r :: rs) = qualifyingPairs mapping rs := by
          simp [qualifyingPairs, List.filterMap_cons, conceptPair, htc, hpc]
        rw [h1, h2]
        exact ih t
      | some pc =>
        have h2 : qualifyingPairs mapping (r :: rs)
            = (tc, pc) :: qualifyingPairs mapping rs := by
          simp [qualifyingPairs, List.filterMap_cons, conceptPair, htc, hpc]
        obtain ⟨ihc, iht, ihp, ihn⟩ := ih (tallyStep mapping t r)
        rw [h2]
        refine ⟨?_, ?_, ?_, ?_⟩
        · intro i j
          rw [ihc i j]
          have h1 : (tallyStep mapping t r).confusion i j
              = if i = tc ∧ j = pc then t.confusion i j + 1 else t.confusion i j := by
            simp only [tallyStep, htc, hpc]
          rw [h1]
          simp only [pairCount, List.countP_cons, decide_eq_true_eq]
          by_cases hC : i = tc ∧ j = pc
          · have hC2 : tc = i ∧ pc = j := ⟨hC.1.symm, hC.2.symm⟩
            simp only [if_pos hC, if_pos hC2]
            omega
          · have hC2 : ¬(tc = i ∧ pc = j) := fun hc => hC ⟨hc.1.symm, hc.2.symm⟩
            simp only [if_neg hC, if_neg hC2]
            omega
        · intro c
          rw [iht c]
          have h1 : (tallyStep mapping t r).tp c
              = if tc = pc ∧ c = tc then t.tp c + 1 else t.tp c := by
            simp only [tallyStep, htc, hpc]
          rw [h1]
          simp only [tpCount, List.countP_cons, decide_eq_true_eq]
          by_cases hC : tc = pc ∧ c = tc
          · have hC2 : tc = pc ∧ tc = c := ⟨hC.1, hC.2.symm⟩
            simp only [if_pos hC, if_pos hC2]
            omega
          · have hC2 : ¬(tc = pc ∧ tc = c) := fun hc => hC ⟨hc.1, hc.2.symm⟩
            simp only [if_neg hC, if_neg hC2]
            omega
        · intro c
          rw [ihp c]
          have h1 : (tallyStep mapping t r).fp c
              = if ¬tc = pc ∧ c = pc then t.fp c + 1 else t.fp c := by
            simp only [tallyStep, htc, hpc]
          rw [h1]
          simp only [fpCount, List.countP_cons, decide_eq_true_eq]
          by_cases hC : ¬tc = pc ∧ c = pc
          · have hC2 : ¬tc = pc ∧ pc = c := ⟨hC.1, hC.2.symm⟩
            simp only [if_pos hC, if_pos hC2]
            omega
          · have hC2 : ¬(¬tc = pc ∧ pc = c) := fun hc => hC ⟨hc.1, hc.2.symm⟩
            simp only [if_neg hC, if_neg hC2]
            omega
        · intro c
          rw [ihn c]
          have h1 : (tallyStep mapping t r).fn c
              = if ¬tc = pc ∧ c = tc then t.fn c + 1 else t.fn c := by
            simp only [tallyStep, htc, hpc]
          rw [h1]
          simp only [fnCount, List.countP_cons, decide_eq_true_eq]
          by_cases hC : ¬tc = pc ∧ c = tc
          · have hC2 : ¬tc = pc ∧ tc = c := ⟨hC.1, hC.2.symm⟩
            simp only [if_pos hC, if_pos hC2]
            omega
          · have hC2 : ¬(¬tc = pc ∧ tc = c) := fun hc => hC ⟨hc.1, hc.2.symm⟩
            simp only [if_neg hC, if_neg hC2]
            omega

/-- The counters at the end of the loop are the specification-level counts. -/
lemma metricsTallies_counts (mapping : LabelMapping) (reviews : List ReviewRow) :
    (∀ i j, (metricsTallies mapping reviews).confusion i j
      = pairCount (qualifyingPairs mapping reviews) i j) ∧
    (∀ c, (metricsTallies mapping reviews).tp c
      = tpCount (qualifyingPairs mapping reviews) c) ∧
    (∀ c, (metricsTallies mapping reviews).fp c
      = fpCount (qualifyingPairs mapping reviews) c) ∧
    (∀ c, (metricsTallies mapping reviews).fn c
      = fnCount (qualifyingPairs mapping reviews) c) := by
  obtain ⟨hc, ht, hp, hn⟩ := foldlTally_spec mapping reviews initTallies
  exact ⟨fun i j => by rw [metricsTallies, hc i j]; simp [initTallies],
    fun c => by rw [metricsTallies, ht c]; simp [initTallies],
    fun c => by rw [metricsTallies, hp c]; simp [initTallies],
    fun c => by rw [metricsTallies, hn c]; simp [initTallies]⟩

/-- The degenerate snapshot the engine produces when nothing qualifies. -/
def zeroMetrics : Metrics :=
  ⟨0, [⟨0, 0, 0, 0⟩, ⟨1, 0, 0, 0⟩, ⟨2, 0, 0, 0⟩],
    [[0, 0, 0], [0, 0, 0], [0, 0, 0]]⟩

lemma computeMetrics_of_no_pairs (reviews : List ReviewRow) (pm : PartialLabelMapping)
    (hq : qualifyingPairs (normalizeLabelMapping pm) reviews = [])
    (hne : reviews ≠ []) :
    computeMetricsForReviews reviews pm = some zeroMetrics := by
  have hlen : ¬reviews.length = 0 := fun h => hne (List.length_eq_zero.mp h)
  obtain ⟨hc, ht, hp, hn⟩ := metricsTallies_counts (normalizeLabelMapping pm) reviews
  have hc0 : ∀ i j, (metricsTallies (normalizeLabelMapping pm) reviews).confusion i j = 0 := by
    intro i j; rw [hc i j, hq]; rfl
  have ht0 : ∀ c, (metricsTallies (normalizeLabelMapping pm) reviews).tp c = 0 := by
    intro c; rw [ht c, hq]; rfl
  have hp0 : ∀ c, (metricsTallies (normalizeLabelMapping pm) reviews).fp c = 0 := by
    intro c; rw [hp c, hq]; rfl
  have hn0 : ∀ c, (metricsTallies (normalizeLabelMapping pm) reviews).fn c = 0 := by
    intro c; rw [hn c, hq]; rfl
  simp only [computeMetricsForReviews, if_neg hlen, perClassOf, List.map_cons,
    List.map_nil, ht0, hp0, hn0, hc0, zeroMetrics]
  norm_num

/-- C1 counterexample: a non-empty review list in which zero records have
both a resolvable true concept and a resolvable predicted concept does NOT
make the engine return the explicit "no metrics available" result: it returns
a degenerate snapshot with all-zero counts and macroF1 = 0.  `null` is
returned only for an empty input list. -/
theorem C1_counterexample :
    computeMetricsForReviews [⟨"1", "t", none, none, none, none, none, .raw⟩] none ≠ none ∧
    computeMetricsForReviews [⟨"1", "t", none, none, none, none, none, .raw⟩] none
      = some zeroMetrics := by
  have h := computeMetrics_of_no_pairs
    [⟨"1", "t", none, none, none, none, none, .raw⟩] none (by decide) (by decide)
  exact ⟨by rw [h]; simp, h⟩

/-- C1 (amended): the engine returns the explicit "no metrics available"
result (`none`) exactly when the input list itself is empty; a non-empty list
in which zero records have both a resolvable true concept and a resolvable
predicted concept instead yields the degenerate snapshot with all-zero
counts and macroF1 = 0. -/
theorem C1_no_qualifying_records :
    ∀ (reviews : List ReviewRow) (pm : PartialLabelMapping),
      (computeMetricsForReviews reviews pm = none ↔ reviews = []) ∧
      (qualifyingPairs (normalizeLabelMapping pm) reviews = [] → reviews ≠ [] →
        computeMetricsForReviews reviews pm = some zeroMetrics) := by
  intro reviews pm
  constructor
  · unfold computeMetricsForReviews
    split
    · next h => exact iff_of_true rfl (List.length_eq_zero.mp h)
    · next h =>
      exact iff_of_false (by simp) (fun he => h (by simp [he]))
  · exact computeMetrics_of_no_pairs reviews pm

/-- Witness for C1's amended theorem at a concrete non-empty unqualifying list. -/
theorem C1_no_qualifying_records_witness :
    qualifyingPairs (normalizeLabelMapping none)
        [⟨"7", "u", none, none, none, none, none, .raw⟩] = [] ∧
    ([⟨"7", "u", none, none, none, none, none, .raw⟩] : List ReviewRow) ≠ [] ∧
    computeMetricsForReviews [⟨"7", "u", none, none, none, none, none, .raw⟩] none
      = some zeroMetrics :=
  ⟨by decide, by decide,
    (C1_no_qualifying_records [⟨"7", "u", none, none, none, none, none, .raw⟩] none).2
      (by decide) (by decide)⟩

/-- C4: the metrics computation derives each record's predicted concept from
`predictedLabel` alone — replacing every record's `correctedLabel` by an
arbitrary value (including removing or adding one) leaves the whole snapshot,
hence the confusion matrix, the per-class metrics and macroF1, unchanged. -/
theorem C4_metrics_ignore_corrected :
    ∀ (reviews : List ReviewRow) (pm : PartialLabelMapping)
      (g : ReviewRow → Option Int),
      computeMetricsForReviews (reviews.map (fun r => { r with correctedLabel := g r })) pm
        = computeMetricsForReviews reviews pm := by
  intro reviews pm g
  have hlen : (reviews.map (fun r => { r with correctedLabel := g r })).length
      = reviews.length := List.length_map _ _
  simp only [computeMetricsForReviews, hlen, metricsTallies, List.foldl_map]
  rfl

/-! Generic counting lemmas used to relate the confusion matrix, the
tp / fp / fn counters and the number of qualifying records. -/

lemma countP_ext {α : Type} (f g : α → Bool) (H : ∀ a, f a = g a) :
    ∀ l : List α, l.countP f = l.countP g := by
  intro l
  induction l with
  | nil => rfl
  | cons a t ih => simp [List.countP_cons, ih, H a]

lemma countP_split2 {α : Type} (f g h : α → Bool)
    (H : ∀ a, (if f a then (1 : Nat) else 0)
      = (if g a then 1 else 0) + (if h a then 1 else 0)) :
    ∀ l : List α, l.countP f = l.countP g + l.countP h := by
  intro l
  induction l with
  | nil => rfl
  | cons a t ih =>
    simp only [List.countP_cons, ih]
    have := H a
    omega

lemma countP_split3 {α : Type} (f g1 g2 g3 : α → Bool)
    (H : ∀ a, (if f a then (1 : Nat) else 0)
      = (if g1 a then 1 else 0) + (if g2 a then 1 else 0) + (if g3 a then 1 else 0)) :
    ∀ l : List α, l.countP f = l.countP g1 + l.countP g2 + l.countP g3 := by
  intro l
  induction l with
  | nil => rfl
  | cons a t ih =>
    simp only [List.countP_cons, ih]
    have := H a
    omega

lemma ind_row_all : ∀ (c : LabelCode) (a : LabelCode × LabelCode),
    (if decide (a.1 = c) then (1 : Nat) else 0)
      = (if decide (a.1 = c ∧ a.2 = 0) then 1 else 0)
        + (if decide (a.1 = c ∧ a.2 = 1) then 1 else 0)
        + (if decide (a.1 = c ∧ a.2 = 2) then 1 else 0) := by decide

lemma ind_col_all : ∀ (c : LabelCode) (a : LabelCode × LabelCode),
    (if decide (a.2 = c) then (1 : Nat) else 0)
      = (if decide (a.1 = 0 ∧ a.2 = c) then 1 else 0)
        + (if decide (a.1 = 1 ∧ a.2 = c) then 1 else 0)
        + (if decide (a.1 = 2 ∧ a.2 = c) then 1 else 0) := by decide

lemma ind_rowsplit_all : ∀ (c : LabelCode) (a : LabelCode × LabelCode),
    (if decide (a.1 = c) then (1 : Nat) else 0)
      = (if decide (a.1 = a.2 ∧ a.1 = c) then 1 else 0)
        + (if decide (¬a.1 = a.2 ∧ a.1 = c) then 1 else 0) := by decide

lemma ind_colsplit_all : ∀ (c : LabelCode) (a : LabelCode × LabelCode),
    (if decide (a.2 = c) then (1 : Nat) else 0)
      = (if decide (a.1 = a.2 ∧ a.1 = c) then 1 else 0)
        + (if decide (¬a.1 = a.2 ∧ a.2 = c) then 1 else 0) := by decide

lemma ind_diag_all : ∀ (c : LabelCode) (a : LabelCode × LabelCode),
    decide (a.1 = c ∧ a.2 = c) = decide (a.1 = a.2 ∧ a.1 = c) := by decide

lemma ind_true_all : ∀ (a : LabelCode × LabelCode),
    (if (true : Bool) then (1 : Nat) else 0)
      = (if decide (a.1 = 0) then 1 else 0) + (if decide (a.1 = 1) then 1 else 0)
        + (if decide (a.1 = 2) then 1 else 0) := by decide

lemma pairCount_diag (l : List (LabelCode × LabelCode)) (c : LabelCode) :
    pairCount l c c = tpCount l c := by
  simp only [pairCount, tpCount]
  exact countP_ext _ _ (ind_diag_all c) l

lemma pairCount_row (l : List (LabelCode × LabelCode)) (c : LabelCode) :
    pairCount l c 0 + pairCount l c 1 + pairCount l c 2 = tpCount l c + fnCount l c := by
  have h1 := countP_split3 (fun p => decide (p.1 = c)) _ _ _ (ind_row_all c) l
  have h2 := countP_split2 (fun p => decide (p.1 = c)) _ _ (ind_rowsplit_all c) l
  simp only [pairCount, tpCount, fnCount]
  omega

lemma pairCount_col (l : List (LabelCode × LabelCode)) (c : LabelCode) :
    pairCount l 0 c + pairCount l 1 c + pairCount l 2 c = tpCount l c + fpCount l c := by
  have h1 := countP_split3 (fun p => decide (p.2 = c)) _ _ _ (ind_col_all c) l
  have h2 := countP_split2 (fun p => decide (p.2 = c)) _ _ (ind_colsplit_all c) l
  simp only [pairCount, tpCount, fpCount]
  omega

lemma pairCount_total (l : List (LabelCode × LabelCode)) :
    pairCount l 0 0 + pairCount l 0 1 + pairCount l 0 2
      + (pairCount l 1 0 + pairCount l 1 1 + pairCount l 1 2)
      + (pairCount l 2 0 + pairCount l 2 1 + pairCount l 2 2) = l.length := by
  have hr0 := countP_split3 (fun p => decide (p.1 = (0 : LabelCode))) _ _ _ (ind_row_all 0) l
  have hr1 := countP_split3 (fun p => decide (p.1 = (1 : LabelCode))) _ _ _ (ind_row_all 1) l
  have hr2 := countP_split3 (fun p => decide (p.1 = (2 : LabelCode))) _ _ _ (ind_row_all 2) l
  have ht := countP_split3 (fun _ => true) _ _ _ ind_true_all l
  rw [List.countP_true] at ht
  simp only [pairCount]
  omega

/-- Unfolding of the engine on a non-empty list. -/
lemma computeMetrics_eq (reviews : List ReviewRow) (pm : PartialLabelMapping)
    (hne : ¬reviews.length = 0) :
    computeMetricsForReviews reviews pm
      = some
        { macroF1 := (List.foldl (fun sum c => sum + c.f1) 0
            (perClassOf (metricsTallies (normalizeLabelMapping pm) reviews))) / 3
          perClass := perClassOf (metricsTallies (normalizeLabelMapping pm) reviews)
          confusionMatrix :=
            [[(metricsTallies (normalizeLabelMapping pm) reviews).confusion 0 0,
              (metricsTallies (normalizeLabelMapping pm) reviews).confusion 0 1,
              (metricsTallies (normalizeLabelMapping pm) reviews).confusion 0 2],
             [(metricsTallies (normalizeLabelMapping pm) reviews).confusion 1 0,
              (metricsTallies (normalizeLabelMapping pm) reviews).confusion 1 1,
              (metricsTallies (normalizeLabelMapping pm) reviews).confusion 1 2],
             [(metricsTallies (normalizeLabelMapping pm) reviews).confusion 2 0,
              (metricsTallies (normalizeLabelMapping pm) reviews).confusion 2 1,
              (metricsTallies (normalizeLabelMapping pm) reviews).confusion 2 2]] } := by
  unfold computeMetricsForReviews
  rw [if_neg hne]

lemma ite_div_nonneg (a b : Nat) :
    (0 : ℚ) ≤ if a + b = 0 then 0 else (a : ℚ) / ((a + b : Nat) : ℚ) := by
  by_cases h : a + b = 0
  · simp [h]
  · simp only [if_neg h]
    positivity

lemma f1_guard_eq (p r : ℚ) (hp : 0 ≤ p) (hr : 0 ≤ r) :
    (if 0 < p + r then 2 * p * r / (p + r) else 0)
      = (if p + r = 0 then 0 else 2 * p * r / (p + r)) := by
  rcases eq_or_lt_of_le (add_nonneg hp hr) with h | h
  · simp [← h]
  · simp [h, ne_of_gt h]

/-- C9: in every snapshot the engine returns, per-class precision is
tp/(tp+fp) with a zero fallback on a zero denominator, recall is tp/(tp+fn)
with the same fallback, f1 is 2·p·r/(p+r) or 0 when p+r = 0, and macroF1 is
the sum of the three per-class f1 values divided by exactly 3 (zero-support
classes contributing f1 = 0). -/
theorem C9_metric_formulas :
    ∀ (reviews : List ReviewRow) (pm : PartialLabelMapping) (m : Metrics),
      computeMetricsForReviews reviews pm = some m →
      m.perClass = ([0, 1, 2] : List LabelCode).map (fun c =>
        let tp := tpCount (qualifyingPairs (normalizeLabelMapping pm) reviews) c
        let fp := fpCount (qualifyingPairs (normalizeLabelMapping pm) reviews) c
        let fn := fnCount (qualifyingPairs (normalizeLabelMapping pm) reviews) c
        let precision : ℚ := if tp + fp = 0 then 0 else (tp : ℚ) / ((tp + fp : Nat) : ℚ)
        let r : ℚ := if tp + fn = 0 then 0 else (tp : ℚ) / ((tp + fn : Nat) : ℚ)
        let f1 : ℚ := if precision + r = 0 then 0 else 2 * precision * r / (precision + r)
        ⟨c, precision, r, f1⟩) ∧
      m.macroF1 = (m.perClass.map PerClassMetrics.f1).sum / 3 := by
  intro reviews pm m h
  unfold computeMetricsForReviews at h
  by_cases hlen : reviews.length = 0
  · rw [if_pos hlen] at h
    exact absurd h (by simp)
  · rw [if_neg hlen] at h
    have hm := Option.some.inj h
    subst hm
    obtain ⟨hcC, htC, hpC, hnC⟩ := metricsTallies_counts (normalizeLabelMapping pm) reviews
    constructor
    · show perClassOf (metricsTallies (normalizeLabelMapping pm) reviews) = _
      simp only [perClassOf, List.map_cons, List.map_nil, htC, hpC, hnC, ne_eq, ite_not]
      rw [f1_guard_eq _ _ (ite_div_nonneg _ _) (ite_div_nonneg _ _),
        f1_guard_eq _ _ (ite_div_nonneg _ _) (ite_div_nonneg _ _),
        f1_guard_eq _ _ (ite_div_nonneg _ _) (ite_div_nonneg _ _)]
    · show (List.foldl (fun sum c => sum + c.f1) 0
          (perClassOf (metricsTallies (normalizeLabelMapping pm) reviews))) / 3 = _
      simp only [perClassOf, List.map_cons, List.map_nil, List.foldl_cons, List.foldl_nil,
        List.sum_cons, List.sum_nil]
      congr 1
      ring

/-- Witness for C9 at a concrete review list (one record, true Negative,
predicted Positive under the default mapping). -/
theorem C9_metric_formulas_witness :
    computeMetricsForReviews [⟨"1", "t", none, some 2, some 0, none, none, .predicted⟩] none
        = some ⟨0, [⟨0, 0, 0, 0⟩, ⟨1, 0, 0, 0⟩, ⟨2, 0, 0, 0⟩],
            [[0, 0, 1], [0, 0, 0], [0, 0, 0]]⟩ ∧
      (⟨0, [⟨0, 0, 0, 0⟩, ⟨1, 0, 0, 0⟩, ⟨2, 0, 0, 0⟩],
          [[0, 0, 1], [0, 0, 0], [0, 0, 0]]⟩ : Metrics).perClass
        = ([0, 1, 2] : List LabelCode).map (fun c =>
          let tp := tpCount (qualifyingPairs (normalizeLabelMapping none)
            [⟨"1", "t", none, some 2, some 0, none, none, .predicted⟩]) c
          let fp := fpCount (qualifyingPairs (normalizeLabelMapping none)
            [⟨"1", "t", none, some 2, some 0, none, none, .predicted⟩]) c
          let fn := fnCount (qualifyingPairs (normalizeLabelMapping none)
            [⟨"1", "t", none, some 2, some 0, none, none, .predicted⟩]) c
          let precision : ℚ := if tp + fp = 0 then 0 else (tp : ℚ) / ((tp + fp : Nat) : ℚ)
          let r : ℚ := if tp + fn = 0 then 0 else (tp : ℚ) / ((tp + fn : Nat) : ℚ)
          let f1 : ℚ := if precision + r = 0 then 0 else 2 * precision * r / (precision + r)
          ⟨c, precision, r, f1⟩) := by
  have hq : qualifyingPairs (normalizeLabelMapping none)
      [⟨"1", "t", none, some 2, some 0, none, none, .predicted⟩]
      = [((0 : LabelCode), (2 : LabelCode))] := by decide
  obtain ⟨hcC, htC, hpC, hnC⟩ := metricsTallies_counts (normalizeLabelMapping none)
    [⟨"1", "t", none, some 2, some 0, none, none, .predicted⟩]
  have htp : ∀ c, (metricsTallies (normalizeLabelMapping none)
      [⟨"1", "t", none, some 2, some 0, none, none, .predicted⟩]).tp c = 0 := by
    intro c
    rw [htC c, hq]
    revert c
    decide
  have hfp : ∀ c, (metricsTallies (normalizeLabelMapping none)
      [⟨"1", "t", none, some 2, some 0, none, none, .predicted⟩]).fp c
      = if c = 2 then 1 else 0 := by
    intro c
    rw [hpC c, hq]
    revert c
    decide
  have hfn : ∀ c, (metricsTallies (normalizeLabelMapping none)
      [⟨"1", "t", none, some 2, some 0, none, none, .predicted⟩]).fn c
      = if c = 0 then 1 else 0 := by
    intro c
    rw [hnC c, hq]
    revert c
    decide
  have hcf : ∀ i j, (metricsTallies (normalizeLabelMapping none)
      [⟨"1", "t", none, some 2, some 0, none, none, .predicted⟩]).confusion i j
      = if i = 0 ∧ j = 2 then 1 else 0 := by
    intro i j
    rw [hcC i j, hq]
    revert i j
    decide
  have hper : perClassOf (metricsTallies (normalizeLabelMapping none)
      [⟨"1", "t", none, some 2, some 0, none, none, .predicted⟩])
      = [⟨0, 0, 0, 0⟩, ⟨1, 0, 0, 0⟩, ⟨2, 0, 0, 0⟩] := by
    simp only [perClassOf, List.map_cons, List.map_nil, htp, hfp, hfn]
    norm_num
  have hev : computeMetricsForReviews
      [⟨"1", "t", none, some 2, some 0, none, none, .predicted⟩] none
      = some ⟨0, [⟨0, 0, 0, 0⟩, ⟨1, 0, 0, 0⟩, ⟨2, 0, 0, 0⟩],
          [[0, 0, 1], [0, 0, 0], [0, 0, 0]]⟩ := by
    rw [computeMetrics_eq _ _ (by simp), hper]
    simp only [Option.some.injEq, Metrics.mk.injEq, hcf]
    norm_num [List.foldl]
    decide
  exact ⟨hev,
    (C9_metric_formulas [⟨"1", "t", none, some 2, some 0, none, none, .predicted⟩]
      none _ hev).1⟩

/-- Entry (i, j) of a confusion matrix rendered as a list of rows. -/
def matrixEntry (mtx : List (List Nat)) (i j : LabelCode) : Nat :=
  (mtx.getD i.val []).getD j.val 0

/-- C10: in every snapshot the engine returns, the nine confusion-matrix
entries sum to the number of records whose true label resolves to a concept
via the mapping and whose predicted label is in {0,1,2}; each diagonal entry
equals the class's true-positive count, each row sums to tp + fn and each
column to tp + fp — the precision and recall denominators. -/
theorem C10_confusion_consistency :
    ∀ (reviews : List ReviewRow) (pm : PartialLabelMapping) (m : Metrics),
      computeMetricsForReviews reviews pm = some m →
      ((m.confusionMatrix.map List.sum).sum
        = (qualifyingPairs (normalizeLabelMapping pm) reviews).length) ∧
      (∀ c : LabelCode,
        matrixEntry m.confusionMatrix c c
          = tpCount (qualifyingPairs (normalizeLabelMapping pm) reviews) c ∧
        matrixEntry m.confusionMatrix c 0 + matrixEntry m.confusionMatrix c 1
            + matrixEntry m.confusionMatrix c 2
          = tpCount (qualifyingPairs (normalizeLabelMapping pm) reviews) c
            + fnCount (qualifyingPairs (normalizeLabelMapping pm) reviews) c ∧
        matrixEntry m.confusionMatrix 0 c + matrixEntry m.confusionMatrix 1 c
            + matrixEntry m.confusionMatrix 2 c
          = tpCount (qualifyingPairs (normalizeLabelMapping pm) reviews) c
            + fpCount (qualifyingPairs (normalizeLabelMapping pm) reviews) c) := by
  intro reviews pm m h
  by_cases hlen : reviews.length = 0
  · unfold computeMetricsForReviews at h
    rw [if_pos hlen] at h
    exact absurd h (by simp)
  · rw [computeMetrics_eq reviews pm hlen] at h
    have hm := Option.some.inj h
    subst hm
    obtain ⟨hcC, _, _, _⟩ := metricsTallies_counts (normalizeLabelMapping pm) reviews
    constructor
    · simp only [List.map_cons, List.map_nil, List.sum_cons, List.sum_nil, hcC]
      have := pairCount_total (qualifyingPairs (normalizeLabelMapping pm) reviews)
      omega
    · intro c
      fin_cases c <;>
        refine ⟨?_, ?_, ?_⟩ <;>
          simp only [matrixEntry, List.getD, List.get?, Option.getD, hcC] <;>
            first
              | exact pairCount_diag _ _
              | exact pairCount_row _ _
              | exact pairCount_col _ _

/-- Witness for C10 at a concrete review list (one record, true Neutral and
predicted Neutral under the default mapping). -/
theorem C10_confusion_consistency_witness :
    computeMetricsForReviews [⟨"1", "t", none, some 1, some 1, none, none, .predicted⟩] none
        = some ⟨1 / 3, [⟨0, 0, 0, 0⟩, ⟨1, 1, 1, 1⟩, ⟨2, 0, 0, 0⟩],
            [[0, 0, 0], [0, 1, 0], [0, 0, 0]]⟩ ∧
      (([[0, 0, 0], [0, 1, 0], [0, 0, 0]] : List (List Nat)).map List.sum).sum
        = (qualifyingPairs (normalizeLabelMapping none)
            [⟨"1", "t", none, some 1, some 1, none, none, .predicted⟩]).length ∧
      matrixEntry [[0, 0, 0], [0, 1, 0], [0, 0, 0]] 1 1
        = tpCount (qualifyingPairs (normalizeLabelMapping none)
            [⟨"1", "t", none, some 1, some 1, none, none, .predicted⟩]) 1 := by
  have hq : qualifyingPairs (normalizeLabelMapping none)
      [⟨"1", "t", none, some 1, some 1, none, none, .predicted⟩]
      = [((1 : LabelCode), (1 : LabelCode))] := by decide
  obtain ⟨hcC, htC, hpC, hnC⟩ := metricsTallies_counts (normalizeLabelMapping none)
    [⟨"1", "t", none, some 1, some 1, none, none, .predicted⟩]
  have htp : ∀ c, (metricsTallies (normalizeLabelMapping none)
      [⟨"1", "t", none, some 1, some 1, none, none, .predicted⟩]).tp c
      = if c = 1 then 1 else 0 := by
    intro c
    rw [htC c, hq]
    revert c
    decide
  have hfp : ∀ c, (metricsTallies (normalizeLabelMapping none)
      [⟨"1", "t", none, some 1, some 1, none, none, .predicted⟩]).fp c = 0 := by
    intro c
    rw [hpC c, hq]
    revert c
    decide
  have hfn : ∀ c, (metricsTallies (normalizeLabelMapping none)
      [⟨"1", "t", none, some 1, some 1, none, none, .predicted⟩]).fn c = 0 := by
    intro c
    rw [hnC c, hq]
    revert c
    decide
  have hcf : ∀ i j, (metricsTallies (normalizeLabelMapping none)
      [⟨"1", "t", none, some 1, some 1, none, none, .predicted⟩]).confusion i j
      = if i = 1 ∧ j = 1 then 1 else 0 := by
    intro i j
    rw [hcC i j, hq]
    revert i j
    decide
  have hper : perClassOf (metricsTallies (normalizeLabelMapping none)
      [⟨"1", "t", none, some 1, some 1, none, none, .predicted⟩])
      = [⟨0, 0, 0, 0⟩, ⟨1, 1, 1, 1⟩, ⟨2, 0, 0, 0⟩] := by
    simp only [perClassOf, List.map_cons, List.map_nil, htp, hfp, hfn]
    norm_num
    decide
  have hev : computeMetricsForReviews
      [⟨"1", "t", none, some 1, some 1, none, none, .predicted⟩] none
      = some ⟨1 / 3, [⟨0, 0, 0, 0⟩, ⟨1, 1, 1, 1⟩, ⟨2, 0, 0, 0⟩],
          [[0, 0, 0], [0, 1, 0], [0, 0, 0]]⟩ := by
    rw [computeMetrics_eq _ _ (by simp), hper]
    simp only [Option.some.injEq, Metrics.mk.injEq, hcf]
    norm_num [List.foldl]
    decide
  have hmain := C10_confusion_consistency
    [⟨"1", "t", none, some 1, some 1, none, none, .predicted⟩] none _ hev
  exact ⟨hev, hmain.1, (hmain.2 1).1⟩

/-! ## CSV parsing (`services/csvUtils.ts`) -/

def trimRightChars (l : List Char) : List Char :=
  (l.reverse.dropWhile Char.isWhitespace).reverse

def trimLeftChars (l : List Char) : List Char :=
  l.dropWhile Char.isWhitespace

/-- Model of `String.prototype.trimEnd` (ASCII whitespace). -/
def jsTrimEnd (s : String) : String := ⟨trimRightChars s.data⟩

/-- Model of `String.prototype.trim` (ASCII whitespace). -/
def jsTrim (s : String) : String := ⟨trimRightChars (trimLeftChars s.data)⟩

/-- Model of `String.prototype.toLowerCase` (ASCII). -/
def jsToLower (s : String) : String := ⟨s.data.map Char.toLower⟩

/-- Splitting at a newline character.  `split(/\r?\n/)` followed by
`trimEnd` equals splitting at a bare newline followed by `trimEnd`: the only
difference, one carriage return left at a line end, is consumed by the trim. -/
def splitLinesChars : List Char → List (List Char)
  | [] => [[]]
  | c :: rest =>
    let r := splitLinesChars rest
    if c = '\n' then [] :: r
    else
      match r with
      | [] => [[c]]
      | h :: t => (c :: h) :: t

/-- The line preprocessing both parsers start with:
`text.split(...).map(l => l.trimEnd()).filter(l => l.length > 0)`. -/
def csvLines (text : String) : List String :=
  ((splitLinesChars text.data).map (fun l => jsTrimEnd ⟨l⟩)).filter
    (fun l => l.length != 0)

/-- The character loop of `parseCsvLine`: the in-quotes flag, the current
cell and the cells already emitted; a doubled quote inside quotes emits one
quote character, a comma outside quotes closes the cell. -/
def parseCsvLineAux : Bool → List Char → List (List Char) → List Char → List (List Char)
  | _, current, result, [] => result ++ [current]
  | true, current, result, '"' :: '"' :: rest =>
    parseCsvLineAux true (current ++ ['"']) result rest
  | inQuotes, current, result, '"' :: rest =>
    parseCsvLineAux (!inQuotes) current result rest
  | false, current, result, ',' :: rest =>
    parseCsvLineAux false [] (result ++ [current]) rest
  | inQuotes, current, result, ch :: rest =>
    parseCsvLineAux inQuotes (current ++ [ch]) result rest

/-- `parseCsvLine` from `csvUtils.ts`. -/
def parseCsvLine (line : String) : List String :=
  (parseCsvLineAux false [] [] line.data).map (fun l => ⟨l⟩)

/-- `buildRowFromTokens`: the JS object keyed by header names; a duplicate
header name is overwritten by the later assignment, so lookups must read the
last entry for a key. -/
def buildRowFromTokens (headers tokens : List String) : List (String × String) :=
  (headers.enum).map (fun p => (p.2, tokens.getD p.1 ""))

/-- Reading `row[key] ?? ''` from the object built above. -/
def rowGet (row : List (String × String)) (key : String) : String :=
  (((row.reverse).find? (fun p => p.1 == key)).map Prod.snd).getD ""

/-- Value of a non-empty all-digit character sequence. -/
def digitsToNat : List Char → Option Nat
  | [] => none
  | l =>
    l.foldl
      (fun acc c =>
        match acc with
        | none => none
        | some n => if c.isDigit then some (n * 10 + (c.toNat - 48)) else none)
      (some 0)

/-- Models the JavaScript test `Number(s) === k` for k ∈ {0,1,2} on an
already-trimmed cell, as decimal integer numerals.  Further numeral forms JS
also accepts (such as "1.0", "2e0" or "0x1") are not modelled; every claim
here is settled on plain decimal cells. -/
def jsNumberInt (s : String) : Option Int :=
  match s.data with
  | '-' :: rest => (digitsToNat rest).map (fun n => -(n : Int))
  | l => (digitsToNat l).map (fun n => (n : Int))

/-- `RawInputRow` from `types/sentiment.ts` as produced by `parseInputCsv`
(which always generates the `id` field). -/
structure RawInputRow where
  id : String
  text : String
  src : Option String
  label : Option Int
deriving DecidableEq, Repr

/-- The `{ rows, totalRows }` result of `parseInputCsv`. -/
structure InputParseResult where
  rows : List RawInputRow
  totalRows : Nat
deriving DecidableEq, Repr

/-- The data-row loop of `parseInputCsv`; `generatedId` is the counter behind
`String(generatedId++)` and advances only when a row is kept. -/
def parseInputRows (headers : List String) (idxText : Nat) (idxSrc idxLabel : Option Nat) :
    Nat → List String → List RawInputRow
  | _, [] => []
  | generatedId, line :: rest =>
    if (jsTrim line).length = 0 then
      parseInputRows headers idxText idxSrc idxLabel generatedId rest
    else
      let tokens := parseCsvLine line
      let data := buildRowFromTokens headers tokens
      let textVal := jsTrim (rowGet data (headers.getD idxText ""))
      if textVal.length = 0 then
        parseInputRows headers idxText idxSrc idxLabel generatedId rest
      else
        let srcVal :=
          match idxSrc with
          | some i => jsTrim (rowGet data (headers.getD i ""))
          | none => ""
        let labelRaw :=
          match idxLabel with
          | some i => jsTrim (rowGet data (headers.getD i ""))
          | none => ""
        let label : Option Int :=
          if labelRaw ≠ "" then
            match jsNumberInt labelRaw with
            | some n => if n = 0 ∨ n = 1 ∨ n = 2 then some n else none
            | none => none
          else none
        { id := toString generatedId, text := textVal,
          src := if srcVal = "" then none else some srcVal, label := label }
          :: parseInputRows headers idxText idxSrc idxLabel (generatedId + 1) rest

/-- `parseInputCsv` from `csvUtils.ts` (on the file's text): requires a
`text` column, matched case-insensitively; a missing column yields the same
empty result as an empty file. -/
def parseInputCsv (text : String) : InputParseResult :=
  match csvLines text with
  | [] => ⟨[], 0⟩
  | headerLine :: dataLines =>
    let headers := (parseCsvLine headerLine).map jsTrim
    let lower := headers.map jsToLower
    match lower.findIdx? (fun h => h == "text") with
    | none => ⟨[], 0⟩
    | some idxText =>
      let rows := parseInputRows headers idxText
        (lower.findIdx? (fun h => h == "src"))
        (lower.findIdx? (fun h => h == "label")) 1 dataLines
      ⟨rows, rows.length⟩

/-- `ValidationRow` from `csvUtils.ts`: only `text` and `trueLabel` survive
parsing; no identifier column is retained. -/
structure ValidationRow where
  text : String
  trueLabel : Int
deriving DecidableEq, Repr

/-- The data-row loop of `parseValidationCsv`: rows with empty text, empty
label or a label other than 0/1/2 are skipped. -/
def parseValidationRows (headers : List String) (idxText idxLabel : Nat) :
    List String → List ValidationRow
  | [] => []
  | line :: rest =>
    if (jsTrim line).length = 0 then parseValidationRows headers idxText idxLabel rest
    else
      let tokens := parseCsvLine line
      let data := buildRowFromTokens headers tokens
      let textVal := jsTrim (rowGet data (headers.getD idxText ""))
      if textVal.length = 0 then parseValidationRows headers idxText idxLabel rest
      else
        let labelRaw := jsTrim (rowGet data (headers.getD idxLabel ""))
        if labelRaw = "" then parseValidationRows headers idxText idxLabel rest
        else
          match jsNumberInt labelRaw with
          | some n =>
            if n = 0 ∨ n = 1 ∨ n = 2 then
              ⟨textVal, n⟩ :: parseValidationRows headers idxText idxLabel rest
            else parseValidationRows headers idxText idxLabel rest
          | none => parseValidationRows headers idxText idxLabel rest

/-- `parseValidationCsv` from `csvUtils.ts`: requires `text` and `label`
columns; a missing column yields the same empty list as an empty file. -/
def parseValidationCsv (text : String) : List ValidationRow :=
  match csvLines text with
  | [] => []
  | headerLine :: dataLines =>
    let headers := (parseCsvLine headerLine).map jsTrim
    let lower := headers.map jsToLower
    match lower.findIdx? (fun h => h == "text"),
          lower.findIdx? (fun h => h == "label") with
    | some idxText, some idxLabel => parseValidationRows headers idxText idxLabel dataLines
    | _, _ => []

/-! ## Validation reconciliation (`context/AnalysisContext.tsx`) -/

/-- Collapsing every whitespace run to one space (`replace(/\s+/g, ' ')`);
the flag records whether the previous character was whitespace, so only the
first character of a run emits the space. -/
def collapseWsAux : Bool → List Char → List Char
  | _, [] => []
  | prevWs, c :: rest =>
    if c.isWhitespace then
      if prevWs then collapseWsAux true rest
      else ' ' :: collapseWsAux true rest
    else c :: collapseWsAux false rest

def collapseWs (l : List Char) : List Char := collapseWsAux false l

/-- `normalizeText` from `AnalysisContext.tsx`:
`t.replace(/\s+/g, ' ').trim()`. -/
def normalizeText (s : String) : String := jsTrim ⟨collapseWs s.data⟩

/-- The `setReviews` update of `applyValidationFile`, applied to the rows
`parseValidationCsv` returns.  A `ValidationRow` carries no `ID`/`id` field,
so the `r.ID ?? r.id` collection finds nothing and the identifier map stays
empty; `trueLabel` is always present, so the index map covers every row. -/
def applyValidationRows (validationRows : List ValidationRow)
    (reviews : List ReviewRow) : List ReviewRow :=
  let idToTrue : String → Option Int := fun _ => none
  let textToTrue : String → Option Int :=
    validationRows.foldl
      (fun m r =>
        if (jsTrim r.text).length ≠ 0 then
          fun k => if k = normalizeText r.text then some r.trueLabel else m k
        else m)
      (fun _ => none)
  let indexToTrue : Nat → Option Int := fun idx =>
    (validationRows.get? idx).map ValidationRow.trueLabel
  (reviews.enum).map (fun p =>
    match (if p.2.id ≠ "" then idToTrue p.2.id else none) with
    | some t => { p.2 with trueLabel := some t }
    | none =>
      match textToTrue (normalizeText p.2.text) with
      | some t => { p.2 with trueLabel := some t }
      | none =>
        match indexToTrue p.1 with
        | some t => { p.2 with trueLabel := some t }
        | none => p.2)

/-- `applyValidationFile` on the file's text: parse, then update every review. -/
def applyValidationFile (csvText : String) (reviews : List ReviewRow) :
    List ReviewRow :=
  applyValidationRows (parseValidationCsv csvText) reviews

/-! Specification-side renderings of the validation matching algorithm, used
to compare the code against the claim. -/

/-- The data-row loop of the validation parser as the specification reads it,
additionally retaining the cell of the optional ID/id column (absent column
or empty cell gives `none`); the row filtering is the same as
`parseValidationRows`. -/
def specValidationRowsAux (headers : List String) (idxText idxLabel : Nat)
    (idxId : Option Nat) : List String → List (Option String × ValidationRow)
  | [] => []
  | line :: rest =>
    if (jsTrim line).length = 0 then
      specValidationRowsAux headers idxText idxLabel idxId rest
    else
      let tokens := parseCsvLine line
      let data := buildRowFromTokens headers tokens
      let textVal := jsTrim (rowGet data (headers.getD idxText ""))
      if textVal.length = 0 then specValidationRowsAux headers idxText idxLabel idxId rest
      else
        let labelRaw := jsTrim (rowGet data (headers.getD idxLabel ""))
        if labelRaw = "" then specValidationRowsAux headers idxText idxLabel idxId rest
        else
          match jsNumberInt labelRaw with
          | some n =>
            if n = 0 ∨ n = 1 ∨ n = 2 then
              let idCell :=
                match idxId with
                | some i => rowGet data (headers.getD i "")
                | none => ""
              (if idCell = "" then none else some idCell, ⟨textVal, n⟩)
                :: specValidationRowsAux headers idxText idxLabel idxId rest
            else specValidationRowsAux headers idxText idxLabel idxId rest
          | none => specValidationRowsAux headers idxText idxLabel idxId rest

/-- The kept validation rows together with their identifiers, as the
specification describes the validation file. -/
def specValidationRowsWithIds (text : String) : List (Option String × ValidationRow) :=
  match csvLines text with
  | [] => []
  | headerLine :: dataLines =>
    let headers := (parseCsvLine headerLine).map jsTrim
    let lower := headers.map jsToLower
    match lower.findIdx? (fun h => h == "text"),
          lower.findIdx? (fun h => h == "label") with
    | some idxText, some idxLabel =>
      specValidationRowsAux headers idxText idxLabel
        (lower.findIdx? (fun h => h == "id")) dataLines
    | _, _ => []

/-- The claim's matching algorithm, stated from the specification's words:
per record, first match wins among (1) identifier equality against the
identifiers collected from the validation file's optional ID/id column,
(2) whitespace-normalized text equality (last write wins), (3) zero-based
positional index after the validation file's own row filtering; no match
leaves the record unchanged. -/
def specApplyValidationFile (csvText : String) (reviews : List ReviewRow) :
    List ReviewRow :=
  let rows := specValidationRowsWithIds csvText
  let idToTrue : String → Option Int := fun k =>
    ((rows.reverse.find? (fun p => p.1 == some k)).map (fun p => p.2.trueLabel))
  let textToTrue : String → Option Int := fun k =>
    ((rows.reverse.find? (fun p => normalizeText p.2.text == k)).map
      (fun p => p.2.trueLabel))
  let indexToTrue : Nat → Option Int := fun idx =>
    (rows.get? idx).map (fun p => p.2.trueLabel)
  (reviews.enum).map (fun p =>
    match idToTrue p.2.id with
    | some t => { p.2 with trueLabel := some t }
    | none =>
      match textToTrue (normalizeText p.2.text) with
      | some t => { p.2 with trueLabel := some t }
      | none =>
        match indexToTrue p.1 with
        | some t => { p.2 with trueLabel := some t }
        | none => p.2)

/-- The amended matching algorithm: the identifier step never fires because
the validation parser retains no identifiers, so matching is by
whitespace-normalized text (last matching row winning; rows whose text is
blank after a trim take no part in text matching), then by zero-based
position after the validation file's row filtering, and otherwise the record
is unchanged. -/
def specApplyValidationNoId (rows : List ValidationRow) (reviews : List ReviewRow) :
    List ReviewRow :=
  (reviews.enum).map (fun p =>
    match ((rows.filter (fun r => (jsTrim r.text).length != 0)).reverse.find?
        (fun r => normalizeText r.text == normalizeText p.2.text)).map
        ValidationRow.trueLabel with
    | some t => { p.2 with trueLabel := some t }
    | none =>
      match (rows.get? p.1).map ValidationRow.trueLabel with
      | some t => { p.2 with trueLabel := some t }
      | none => p.2)

/-- The left fold that builds `textToTrue` computes, at every key, the label
of the last kept validation row whose normalized text equals the key, with
the initial map as fallback. -/
lemma textToTrue_foldl_eq (rows : List ValidationRow) :
    ∀ (init : String → Option Int) (k : String),
      (rows.foldl
        (fun m r =>
          if (jsTrim r.text).length ≠ 0 then
            fun k2 => if k2 = normalizeText r.text then some r.trueLabel else m k2
          else m)
        init) k
      = Option.or
          (((rows.filter (fun r => (jsTrim r.text).length != 0)).reverse.find?
            (fun r => normalizeText r.text == k)).map ValidationRow.trueLabel)
          (init k) := by
  induction rows with
  | nil => intro init k; simp [Option.or]
  | cons r rs ih =>
    intro init k
    simp only [List.foldl_cons, List.filter_cons]
    by_cases hkeep : (jsTrim r.text).length ≠ 0
    · have hb : ((jsTrim r.text).length != 0) = true := by
        simpa [bne_iff_ne] using hkeep
      rw [if_pos hkeep, hb, if_pos rfl, ih, List.reverse_cons, List.find?_append]
      cases hf : (rs.filter (fun r2 => (jsTrim r2.text).length != 0)).reverse.find?
          (fun r2 => normalizeText r2.text == k) with
      | some v => simp [hf, Option.or]
      | none =>
        simp only [hf, Option.none_or]
        by_cases hpr : normalizeText r.text = k
        · have hb2 : (normalizeText r.text == k) = true := by simp [hpr]
          have : (List.find? (fun r2 => normalizeText r2.text == k) [r]) = some r := by
            simp [List.find?, hb2]
          simp [this, hpr.symm, Option.or]
        · have hb2 : (normalizeText r.text == k) = false := by simp [hpr]
          have : (List.find? (fun r2 => normalizeText r2.text == k) [r]) = none := by
            simp [List.find?, hb2]
          have hk : ¬k = normalizeText r.text := fun h => hpr h.symm
          simp [this, hk, Option.or]
    · have hb : ((jsTrim r.text).length != 0) = false := by
        simpa [bne_iff_ne] using hkeep
      rw [if_neg hkeep, hb]
      simpa using ih init k

/-- C5 counterexample: on a validation file with an ID column whose first row
matches the record by identifier ("7") but not by text, the code sets the
record's true label from the TEXT match (label 0 of the second row), not from
the identifier match (label 2) that the claim's priority order mandates: the
validation parser never retains the ID column, so step (1) cannot fire. -/
theorem C5_counterexample :
    ((applyValidationFile "id,text,label\n7,b,2\nx,a,0"
        [⟨"7", "a", none, none, none, none, none, .raw⟩]).map ReviewRow.trueLabel
      = [some 0]) ∧
    ((specApplyValidationFile "id,text,label\n7,b,2\nx,a,0"
        [⟨"7", "a", none, none, none, none, none, .raw⟩]).map ReviewRow.trueLabel
      = [some 2]) ∧
    applyValidationFile "id,text,label\n7,b,2\nx,a,0"
        [⟨"7", "a", none, none, none, none, none, .raw⟩]
      ≠ specApplyValidationFile "id,text,label\n7,b,2\nx,a,0"
        [⟨"7", "a", none, none, none, none, none, .raw⟩] :=
  ⟨by decide, by decide, by decide⟩

/-- C5 (amended): applying a validation file determines each record's true
label by whitespace-normalized text equality (collisions last-write-wins,
blank-text rows not participating), then by zero-based positional index after
the validation file's own row filtering; identifier matching never applies
because the validation parser discards every column except text and label,
and a record matching neither keeps its previous true label. -/
theorem C5_validation_matching :
    ∀ (csvText : String) (reviews : List ReviewRow),
      applyValidationFile csvText reviews
        = specApplyValidationNoId (parseValidationCsv csvText) reviews := by
  intro csvText reviews
  show List.map _ reviews.enum = List.map _ reviews.enum
  refine congrArg (fun f => List.map f reviews.enum) (funext fun p => ?_)
  simp only [ite_self]
  rw [textToTrue_foldl_eq]
  simp only [Option.or_none]

/-- The header of a CSV text as the parsers see it: first kept line, cells
trimmed and lowered. -/
def csvHeaderLower (text : String) : List String :=
  match csvLines text with
  | [] => []
  | h :: _ => ((parseCsvLine h).map jsTrim).map jsToLower

lemma findIdx?_go_eq_none_of_forall {α : Type} (p : α → Bool) :
    ∀ l : List α, (∀ x ∈ l, p x = false) → ∀ s : Nat, List.findIdx? p l s = none := by
  intro l
  induction l with
  | nil => intro _ s; rfl
  | cons a t ih =>
    intro h s
    simp only [List.findIdx?, h a (List.mem_cons_self a t), Bool.false_eq_true, if_false]
    exact ih (fun x hx => h x (List.mem_cons_of_mem a hx)) (s + 1)

lemma findIdx?_eq_none_of_forall {α : Type} (p : α → Bool)
    (l : List α) (h : ∀ x ∈ l, p x = false) : l.findIdx? p = none :=
  findIdx?_go_eq_none_of_forall p l h 0

/-- C7 counterexample: a header without the required columns produces the
very same ordinary empty result as a well-formed file with no data rows — the
codec carries no ParseError value (and no reason) that a caller could
distinguish from a successful empty parse. -/
theorem C7_counterexample :
    parseInputCsv "foo,bar\nx,y" = ⟨[], 0⟩ ∧
    parseInputCsv "foo,bar\nx,y" = parseInputCsv "text" ∧
    parseValidationCsv "text\nhello" = [] ∧
    parseValidationCsv "text\nhello" = parseValidationCsv "text,label" :=
  ⟨by decide, by decide, by decide, by decide⟩

/-- C7 (amended): parsing CSV text whose header lacks a `text` column (input)
or lacks `text` or `label` (validation) yields zero records — but as an
ordinary empty result, the same value an empty file produces, not as a
ParseError carrying a reason. -/
theorem C7_missing_required_columns :
    ∀ csv : String,
      ("text" ∉ csvHeaderLower csv →
        parseInputCsv csv = ⟨[], 0⟩ ∧ parseValidationCsv csv = []) ∧
      ("label" ∉ csvHeaderLower csv → parseValidationCsv csv = []) := by
  intro csv
  cases hL : csvLines csv with
  | nil =>
    refine ⟨fun _ => ⟨?_, ?_⟩, fun _ => ?_⟩ <;> simp [parseInputCsv, parseValidationCsv, hL]
  | cons h t =>
    have hdr : csvHeaderLower csv = ((parseCsvLine h).map jsTrim).map jsToLower := by
      simp [csvHeaderLower, hL]
    constructor
    · intro hmem
      rw [hdr] at hmem
      have hfind : (((parseCsvLine h).map jsTrim).map jsToLower).findIdx?
          (fun x => x == "text") = none :=
        findIdx?_eq_none_of_forall _ _
          (fun x hx => beq_eq_false_iff_ne.mpr (fun heq => hmem (heq ▸ hx)))
      constructor
      · unfold parseInputCsv
        rw [hL]
        simp only [hfind]
      · unfold parseValidationCsv
        rw [hL]
        simp only [hfind]
    · intro hmem
      rw [hdr] at hmem
      have hfind : (((parseCsvLine h).map jsTrim).map jsToLower).findIdx?
          (fun x => x == "label") = none :=
        findIdx?_eq_none_of_forall _ _
          (fun x hx => beq_eq_false_iff_ne.mpr (fun heq => hmem (heq ▸ hx)))
      unfold parseValidationCsv
      rw [hL]
      cases htext : (((parseCsvLine h).map jsTrim).map jsToLower).findIdx?
          (fun x => x == "text") with
      | none => simp only [hfind, htext]
      | some i => simp only [hfind, htext]

/-- Witness for C7's amended theorem at concrete header-deficient files. -/
theorem C7_missing_required_columns_witness :
    ("text" ∉ csvHeaderLower "foo,bar\nx,y") ∧
    parseInputCsv "foo,bar\nx,y" = ⟨[], 0⟩ ∧
    parseValidationCsv "foo,bar\nx,y" = [] ∧
    ("label" ∉ csvHeaderLower "text\nhello") ∧
    parseValidationCsv "text\nhello" = [] :=
  ⟨by decide,
    ((C7_missing_required_columns "foo,bar\nx,y").1 (by decide)).1,
    ((C7_missing_required_columns "foo,bar\nx,y").1 (by decide)).2,
    by decide,
    (C7_missing_required_columns "text\nhello").2 (by decide)⟩

/-- C8 counterexample: the input parser ignores an `id` column entirely — the
row with id cell "x1" comes back with the generated identifier "1". -/
theorem C8_counterexample :
    parseInputCsv "id,text\nx1,A" = ⟨[⟨"1", "A", none, none⟩], 1⟩ ∧
    (parseInputCsv "id,text\nx1,A").rows.map RawInputRow.id ≠ ["x1"] :=
  ⟨by decide, by decide⟩

lemma parseInputRows_ids (headers : List String) (idxText : Nat)
    (idxSrc idxLabel : Option Nat) :
    ∀ (lines : List String) (g : Nat),
      (parseInputRows headers idxText idxSrc idxLabel g lines).map RawInputRow.id
        = (List.range (parseInputRows headers idxText idxSrc idxLabel g lines).length).map
            (fun i => toString (g + i)) := by
  intro lines
  induction lines with
  | nil => intro g; rfl
  | cons line rest ih =>
    intro g
    by_cases h1 : (jsTrim line).length = 0
    · simp only [parseInputRows, if_pos h1]
      exact ih g
    · simp only [parseInputRows, if_neg h1]
      by_cases h2 : (jsTrim (rowGet (buildRowFromTokens headers (parseCsvLine line))
          (headers.getD idxText ""))).length = 0
      · rw [if_pos h2]
        exact ih g
      · rw [if_neg h2]
        simp only [List.map_cons, List.length_cons, ih (g + 1),
          List.range_succ_eq_map, List.map_map]
        refine congrArg₂ List.cons (by simp) ?_
        refine List.map_congr_left (fun i _ => ?_)
        simp only [Function.comp_apply]
        congr 1
        omega

/-- C8 (amended): the input parser always generates record identifiers as the
consecutive strings "1", "2", "3", … in row order over the kept rows — any
id/ID column in the file is ignored — and the numbering is independent of how
many rows were dropped for empty text. -/
theorem C8_identifiers_generated :
    ∀ csv : String,
      (parseInputCsv csv).rows.map RawInputRow.id
        = (List.range (parseInputCsv csv).rows.length).map (fun i => toString (i + 1)) := by
  intro csv
  unfold parseInputCsv
  cases hL : csvLines csv with
  | nil => rfl
  | cons h t =>
    cases hfind : (((parseCsvLine h).map jsTrim).map jsToLower).findIdx?
        (fun s => s == "text") with
    | none =>
      simp only [hfind]
      rfl
    | some idxText =>
      simp only [hfind, parseInputRows_ids]
      refine List.map_congr_left (fun i _ => ?_)
      congr 1
      omega

/-! ## Configurable results export -/

/-- The `{includeId, includeText}` configuration of the final-CSV export. -/
structure ExportOptions where
  includeId : Bool
  includeText : Bool
deriving DecidableEq, Repr

/-- The nullish coalescing `corrected ?? predicted`. -/
def jsNullish (a b : Option Int) : Option Int :=
  match a with
  | some v => some v
  | none => b

/-- Doubling every inner quote of a text cell. -/
def doubleQuotes : List Char → List Char
  | [] => []
  | c :: rest =>
    if c = '"' then '"' :: '"' :: doubleQuotes rest else c :: doubleQuotes rest

/-- A quote-wrapped cell with inner quotes doubled. -/
def quoteCell (s : String) : String := ⟨'"' :: (doubleQuotes s.data ++ ['"'])⟩

/-- Modelled from the spec: the three-argument
`exportResultsCsv(reviews, labelMapping, {includeId, includeText})` invoked
by `ResultsPage.handleDownloadFinalCsv` — its body is not among the provided
source files, only its callers are.  Per the serialization contract it emits
a header plus one row per record, columns in the fixed order [ID?, text?,
label]; the always-present label cell converts the effective label
`corrected ?? predicted` to a concept through the fixed model identity and
re-encodes it as a dataset code through the active mapping, emitting the
empty string when the effective label is absent; text cells are
quote-wrapped with inner quotes doubled.  Delimiter joining and file
download are outside the model: the result is the list of rows of cells. -/
def exportResultsCsv (reviews : List ReviewRow) (labelMapping : PartialLabelMapping)
    (opts : ExportOptions) : List (List String) :=
  let mapping := normalizeLabelMapping labelMapping
  ((if opts.includeId then ["ID"] else [])
      ++ (if opts.includeText then ["text"] else []) ++ ["label"])
    :: reviews.map (fun r =>
      (if opts.includeId then [r.id] else [])
        ++ (if opts.includeText then [quoteCell r.text] else [])
        ++ [match modelCodeToConceptLabel (jsNullish r.correctedLabel r.predictedLabel) with
            | some concept => toString (conceptLabelToDatasetCode concept mapping).val
            | none => ""])

/-- C6: the export emits a header plus one line per record, columns in the
fixed order [ID?, text?, label] per the flags; the label column is always
present and holds the effective label `corrected ?? predicted` re-encoded
from the model convention into the current dataset code via the active
mapping, or the empty string when the effective label is absent. -/
theorem C6_export_layout :
    ∀ (reviews : List ReviewRow) (pm : PartialLabelMapping) (opts : ExportOptions),
      (exportResultsCsv reviews pm opts).length = reviews.length + 1 ∧
      (exportResultsCsv reviews pm opts)[0]?
        = some ((if opts.includeId then ["ID"] else [])
            ++ (if opts.includeText then ["text"] else []) ++ ["label"]) ∧
      ∀ i : Nat, (exportResultsCsv reviews pm opts)[i + 1]?
        = reviews[i]?.map (fun r =>
            (if opts.includeId then [r.id] else [])
              ++ (if opts.includeText then [quoteCell r.text] else [])
              ++ [match modelCodeToConceptLabel (jsNullish r.correctedLabel r.predictedLabel) with
                  | some concept =>
                    toString (conceptLabelToDatasetCode concept (normalizeLabelMapping pm)).val
                  | none => ""]) := by
  intro reviews pm opts
  refine ⟨by simp [exportResultsCsv], ?_, fun i => ?_⟩
  · simp only [exportResultsCsv, List.getElem?_cons_zero]
  · simp only [exportResultsCsv, List.getElem?_cons_succ, List.getElem?_map]

end Tesa
